import Mathlib

/-!
Verification of the Fulcrum server slice (App.cpp, Util.cpp, Pluralize2.cpp)
against its natural-language specification.  C++ code is shallowly embedded:
QString values become `String` or `List Char`, integers become `Nat`/`Int`,
reals compared against exact bounds become `ℚ`, and code that throws
(`BadArgs`, `InternalError`) returns `Except String _`.
-/

namespace Fulcrum

/-! ### Pluralize2 (src/Pluralize2.cpp, operator<<)

Words are modelled as `List Char` so that suffix manipulation is structural.
`qRight w n` models `QString::right(n)` (the rightmost `n` characters, or the
whole string when it is shorter).  `endsWithChar` models `QString::endsWith(QChar)`. -/

def qRight (w : List Char) (n : Nat) : List Char :=
  w.drop (w.length - n)

def endsWithChar (w : List Char) (c : Char) : Bool :=
  match w.getLast? with
  | some d => d == c
  | none => false

/-- Embeds the `|n| != 1` branch structure of `operator<<(QDebug, const Pluralize2 &)`
(Pluralize2.cpp lines 31-46): the word (with its plural ending applied) that the
operator streams out; for `|n| == 1` the word is streamed unchanged. -/
def pluralize2 (n : Int) (w : List Char) : List Char :=
  if n.natAbs != 1 then
    let wordend := qRight w 2
    if endsWithChar wordend 's' || wordend == ['s', 'h'] then
      w ++ ['e', 's']
    else if endsWithChar wordend 'y' then
      w.dropLast ++ ['i', 'e', 's']
    else
      w ++ ['s']
  else
    w

/-- The claim's description of pluralization, stated directly on the word
(ends in `'s'`, ends in `"sh"`, ends in `'y'`), to be compared with the
code-derived `pluralize2`. -/
def pluralizeClaim (n : Int) (w : List Char) : List Char :=
  if n.natAbs == 1 then
    w
  else if endsWithChar w 's' || List.isSuffixOf ['s', 'h'] w then
    w ++ ['e', 's']
  else if endsWithChar w 'y' then
    w.dropLast ++ ['i', 'e', 's']
  else
    w ++ ['s']

lemma charBeq_comm (a b : Char) : (a == b) = (b == a) := by
  rcases Decidable.em (a = b) with h | h
  · subst h; rfl
  · rw [beq_eq_false_iff_ne.mpr h, beq_eq_false_iff_ne.mpr (Ne.symm h)]

lemma endsWithChar_append_singleton (t : List Char) (c x : Char) :
    endsWithChar (t ++ [c]) x = (c == x) := by
  simp [endsWithChar]

lemma qRight_two_append (t2 : List Char) (b c : Char) :
    qRight ((t2 ++ [b]) ++ [c]) 2 = [b, c] := by
  unfold qRight
  have hlen : ((t2 ++ [b]) ++ [c]).length - 2 = t2.length := by
    simp
  rw [hlen, List.append_assoc]
  exact List.drop_left t2 ([b] ++ [c])

lemma isSuffixOf_sh_append (t2 : List Char) (b c : Char) :
    List.isSuffixOf ['s', 'h'] ((t2 ++ [b]) ++ [c]) = (b == 's' && c == 'h') := by
  simp only [List.isSuffixOf, List.reverse_append, List.reverse_cons, List.reverse_nil,
    List.nil_append, List.cons_append, List.singleton_append]
  simp [List.isPrefixOf]
  rw [charBeq_comm 's' b, charBeq_comm 'h' c, Bool.and_comm]

lemma endsWithChar_qRight_two (w : List Char) (x : Char) :
    endsWithChar (qRight w 2) x = endsWithChar w x := by
  rcases List.eq_nil_or_concat w with rfl | ⟨t, c, rfl⟩
  · rfl
  · rcases List.eq_nil_or_concat t with rfl | ⟨t2, b, rfl⟩
    · simp [qRight]
    · simp only [List.concat_eq_append]
      rw [qRight_two_append]
      simp [endsWithChar]

lemma qRight_two_beq_sh (w : List Char) :
    (qRight w 2 == ['s', 'h']) = List.isSuffixOf ['s', 'h'] w := by
  rcases List.eq_nil_or_concat w with rfl | ⟨t, c, rfl⟩
  · simp [qRight, List.isSuffixOf, List.isPrefixOf]
  · rcases List.eq_nil_or_concat t with rfl | ⟨t2, b, rfl⟩
    · simp only [List.concat_eq_append, List.nil_append]
      have h1 : qRight [c] 2 = [c] := rfl
      have h2 : (([c] : List Char) == ['s', 'h']) = (c == 's' && false) := rfl
      rw [h1, h2]
      simp [List.isSuffixOf, List.isPrefixOf]
    · simp only [List.concat_eq_append]
      rw [qRight_two_append, isSuffixOf_sh_append]
      have h2 : (([b, c] : List Char) == ['s', 'h']) = (b == 's' && (c == 'h' && true)) := rfl
      rw [h2, Bool.and_true]

/-- C9: for every integer n and word w, the pluralization output is: w unchanged
when |n| = 1; otherwise w suffixed with "es" when w ends in 's' or in "sh", w
with its final 'y' replaced by "ies" when w ends in 'y', and w suffixed with
"s" in all other cases. -/
theorem pluralize2_matches_claim (n : Int) (w : List Char) :
    pluralize2 n w = pluralizeClaim n w := by
  by_cases h1 : n.natAbs = 1 <;>
    simp [pluralize2, pluralizeClaim, h1, endsWithChar_qRight_two, qRight_two_beq_sh]

/-! ### Trace/Debug gating (Util.cpp lines 261-287)

`Debug::isEnabled` returns `!ourApp || ourApp->options.verboseDebug`;
`Trace::isEnabled` returns `ourApp && ourApp->options.verboseTrace && Debug::isEnabled()`.
The app reference is modelled as an `Option`; the two option flags as Bools.
The destructors set `doprt = isEnabled()`, so a record is emitted exactly when
the corresponding `isEnabled` returns true. -/

structure OptionsDbg where
  verboseDebug : Bool
  verboseTrace : Bool

def debugIsEnabled (ourApp : Option OptionsDbg) : Bool :=
  match ourApp with
  | none => true
  | some o => o.verboseDebug

def traceIsEnabled (ourApp : Option OptionsDbg) : Bool :=
  match ourApp with
  | none => false
  | some o => o.verboseTrace && debugIsEnabled (some o)

/-- C10: trace logging can be enabled only when debug logging is enabled:
whenever `Trace::isEnabled()` is true, the app exists, `options.verboseTrace`
holds, and `Debug::isEnabled()` is also true — so a Trace record is never
emitted while debug output is disabled. -/
theorem trace_only_with_debug (a : Option OptionsDbg)
    (h : traceIsEnabled a = true) :
    a.isSome = true ∧ (a.map OptionsDbg.verboseTrace).getD false = true ∧
      debugIsEnabled a = true := by
  match a with
  | none => simp [traceIsEnabled] at h
  | some o =>
    simp only [traceIsEnabled, Bool.and_eq_true] at h
    refine ⟨rfl, ?_, h.2⟩
    simpa using h.1

theorem trace_only_with_debug_witness :
    traceIsEnabled (some ⟨true, true⟩) = true ∧
      ((some (⟨true, true⟩ : OptionsDbg)).isSome = true ∧
        ((some (⟨true, true⟩ : OptionsDbg)).map OptionsDbg.verboseTrace).getD false = true ∧
        debugIsEnabled (some ⟨true, true⟩) = true) :=
  ⟨by decide, trace_only_with_debug (some ⟨true, true⟩) (by decide)⟩

/-! ### Clock (Util.cpp lines 15-33)

`Util::getTime()` returns `duration_cast<milliseconds>(now - t0).count()`, i.e.
the elapsed nanoseconds truncated to milliseconds; `Util::isClockSteady()`
reports whether `std::chrono::high_resolution_clock` is steady.  A run of the
ambient clock is modelled as the sequence of raw elapsed-nanosecond readings
observed at each call, plus the platform's steadiness flag; a steady clock
guarantees the raw readings are non-decreasing (nothing more). -/

def getTimeMsOfNs (elapsedNs : Nat) : Nat :=
  elapsedNs / 1000000

structure ClockRun where
  readNs : Nat → Nat
  isSteady : Bool

def ClockRun.getTimeAt (cr : ClockRun) (k : Nat) : Nat :=
  getTimeMsOfNs (cr.readNs k)

/-- A steady clock whose consecutive raw readings strictly increase by 1 ns. -/
def clockCexSteady : ClockRun :=
  { readNs := fun k => k, isSteady := true }

/-- A non-steady clock (system time adjusted backwards between the calls). -/
def clockCexBackwards : ClockRun :=
  { readNs := fun k => if k = 0 then 2000000 else 0, isSteady := false }

/-- C5 counterexample: on a steady clock with strictly increasing raw readings,
two consecutive `getTime` results can be equal (milliseconds truncate), so the
second is not strictly greater; and on a non-steady clock the second `getTime`
result can be strictly smaller than the first, so the unconditional
non-decrease also fails. -/
theorem getTime_claim_counterexample :
    (clockCexSteady.isSteady = true ∧
      clockCexSteady.readNs 0 < clockCexSteady.readNs 1 ∧
      ¬ clockCexSteady.getTimeAt 0 < clockCexSteady.getTimeAt 1) ∧
    (clockCexBackwards.getTimeAt 1 < clockCexBackwards.getTimeAt 0) := by
  refine ⟨⟨rfl, ?_, ?_⟩, ?_⟩
  · decide
  · decide
  · decide

/-- C5 amended: whenever the raw clock reading of the second call is at least
that of the first (which is what steadiness guarantees), the second `getTime`
result is greater than or equal to the first; strict increase at millisecond
granularity is not guaranteed. -/
theorem getTime_monotone (cr : ClockRun) (i j : Nat)
    (h : cr.readNs i ≤ cr.readNs j) :
    cr.getTimeAt i ≤ cr.getTimeAt j :=
  Nat.div_le_div_right h

theorem getTime_monotone_witness :
    clockCexSteady.readNs 0 ≤ clockCexSteady.readNs 1 ∧
      clockCexSteady.getTimeAt 0 ≤ clockCexSteady.getTimeAt 1 :=
  ⟨by decide, getTime_monotone clockCexSteady 0 1 (by decide)⟩

/-! ### Termination-signal handler (App.cpp lines 115-132, the `gotsig` lambda)

The handler keeps a static counter `ct`.  On `!ct++` it logs and calls
`app()->exit(sig)` (the event loop then returns `sig`, which the process exits
with) — modelled as `SigAction.shutdown sig`.  While `ct < 5` (after the
increment) a repeat only prints a duplicate-signal message; afterwards it calls
`std::abort()`. -/

inductive SigAction where
  | shutdown (code : Int)
  | duplicate (sig : Int)
  | abortNow (sig : Int)
  deriving DecidableEq, Repr

def gotsig (ct : Nat) (sig : Int) : Nat × SigAction :=
  let ct1 := ct + 1
  if ct = 0 then (ct1, SigAction.shutdown sig)
  else if ct1 < 5 then (ct1, SigAction.duplicate sig)
  else (ct1, SigAction.abortNow sig)

def runSigsFrom (ct : Nat) : List Int → List SigAction
  | [] => []
  | s :: rest => (gotsig ct s).2 :: runSigsFrom (gotsig ct s).1 rest

/-- The actions taken over a sequence of signal deliveries, the counter
starting at 0 as in the static initializer. -/
def runSigs (sigs : List Int) : List SigAction :=
  runSigsFrom 0 sigs

def isShutdownAction : SigAction → Bool
  | SigAction.shutdown _ => true
  | _ => false

def countShutdowns (l : List SigAction) : Nat :=
  l.countP isShutdownAction

lemma gotsig_fst (ct : Nat) (sig : Int) : (gotsig ct sig).1 = ct + 1 := by
  by_cases h : ct = 0 <;> by_cases h5 : ct + 1 < 5 <;> simp [gotsig, h, h5]

lemma runSigsFrom_cons (ct : Nat) (s : Int) (rest : List Int) :
    runSigsFrom ct (s :: rest) = (gotsig ct s).2 :: runSigsFrom (ct + 1) rest := by
  rw [runSigsFrom, gotsig_fst]

lemma runSigsFrom_length (ct : Nat) (sigs : List Int) :
    (runSigsFrom ct sigs).length = sigs.length := by
  induction sigs generalizing ct with
  | nil => rfl
  | cons s rest ih => rw [runSigsFrom_cons]; simp [ih]

lemma gotsig_snd_ne_zero (ct : Nat) (sig : Int) (h : ct ≠ 0) :
    isShutdownAction (gotsig ct sig).2 = false := by
  unfold gotsig
  simp only [h, if_false]
  split <;> rfl

lemma countShutdowns_runSigsFrom_pos (ct : Nat) (sigs : List Int) (h : ct ≠ 0) :
    countShutdowns (runSigsFrom ct sigs) = 0 := by
  induction sigs generalizing ct with
  | nil => rfl
  | cons s rest ih =>
    rw [runSigsFrom_cons]
    unfold countShutdowns at ih ⊢
    rw [List.countP_cons, gotsig_snd_ne_zero ct s h]
    simp [ih (ct + 1) (Nat.succ_ne_zero ct)]

lemma runSigsFrom_getD (sigs : List Int) (ct i : Nat) (h : i < sigs.length) :
    (runSigsFrom ct sigs).getD i (SigAction.duplicate 0) =
      (gotsig (ct + i) (sigs.getD i 0)).2 := by
  induction sigs generalizing ct i with
  | nil => exact absurd h (Nat.not_lt_zero i)
  | cons s rest ih =>
    cases i with
    | zero => simp [runSigsFrom_cons]
    | succ k =>
      have hk : k < rest.length := Nat.lt_of_succ_lt_succ h
      rw [runSigsFrom_cons]
      simp only [List.getD_cons_succ]
      rw [ih (ct + 1) k hk]
      congr 2
      omega

/-- C4: for every sequence of termination-signal deliveries, the first delivery
initiates shutdown exactly once (passing the signal value as the exit code);
the second through fourth deliveries only print a duplicate-signal message and
do not re-enter the shutdown path; the fifth delivery forces an abort. -/
theorem signal_handler_lifecycle (sigs : List Int) (i : Nat)
    (h : i < sigs.length) (hi : i ≤ 4) :
    countShutdowns (runSigs sigs) = min 1 sigs.length ∧
      (runSigs sigs).getD i (SigAction.duplicate 0) =
        (if i = 0 then SigAction.shutdown (sigs.getD i 0)
         else if i < 4 then SigAction.duplicate (sigs.getD i 0)
         else SigAction.abortNow (sigs.getD i 0)) := by
  constructor
  · match sigs with
    | [] => rfl
    | s :: rest =>
      unfold runSigs
      rw [runSigsFrom_cons]
      unfold countShutdowns
      rw [List.countP_cons]
      have h0 : isShutdownAction (gotsig 0 s).2 = true := rfl
      rw [h0]
      have := countShutdowns_runSigsFrom_pos 1 rest (Nat.one_ne_zero)
      unfold countShutdowns at this
      simp [this]
  · unfold runSigs
    rw [runSigsFrom_getD sigs 0 i h]
    rw [Nat.zero_add]
    interval_cases i <;> rfl

theorem signal_handler_lifecycle_witness :
    (4 < ([2, 2, 2, 2, 2] : List Int).length ∧ 4 ≤ 4) ∧
      (countShutdowns (runSigs [2, 2, 2, 2, 2]) = min 1 ([2, 2, 2, 2, 2] : List Int).length ∧
        (runSigs [2, 2, 2, 2, 2]).getD 4 (SigAction.duplicate 0) =
          (if 4 = 0 then SigAction.shutdown (([2, 2, 2, 2, 2] : List Int).getD 4 0)
           else if 4 < 4 then SigAction.duplicate (([2, 2, 2, 2, 2] : List Int).getD 4 0)
           else SigAction.abortNow (([2, 2, 2, 2, 2] : List Int).getD 4 0))) :=
  ⟨⟨by decide, by decide⟩, signal_handler_lifecycle [2, 2, 2, 2, 2] 4 (by decide) (by decide)⟩

/-! ### Cross-thread synchronous call (Util.cpp lines 142-171, Util::LambdaOnObject)

The branches of `LambdaOnObject` are driven by: whether the `std::function` is
null, whether the caller is already on the target object's thread, whether the
target's thread `isRunning()` at submit time, and — in the cross-thread case —
whether the posted job finishes (and `put`s on the single-shot channel) before
`timeout_ms` elapses.  The last is an environment oracle; `VariantChannel::get`
is modelled from the spec: it yields the value put on the channel when the put
happens before the timeout and false on timeout.  The result of the model is
the pair (value returned to the caller, whether the job ran to completion
before the timeout). -/

structure CallEnv where
  lambdaNull : Bool
  sameThread : Bool
  targetThreadRunning : Bool
  jobCompletesBeforeTimeout : Bool

def lambdaOnObject (e : CallEnv) : Bool × Bool :=
  if e.lambdaNull then (true, false)
  else if e.sameThread then (true, true)
  else if !e.targetThreadRunning then (false, false)
  else (e.jobCompletesBeforeTimeout, e.jobCompletesBeforeTimeout)

/-- C6: for a non-null job, the synchronous cross-thread call returns true iff
the job ran to completion before the timeout; a caller already on the target's
thread runs the job inline and gets true; if the target's thread is not
running at submit time the call returns false without running the job. -/
theorem lambdaOnObject_spec (e : CallEnv) (hn : e.lambdaNull = false) :
    (lambdaOnObject e).1 = (lambdaOnObject e).2 ∧
      lambdaOnObject e =
        (if e.sameThread then (true, true)
         else if e.targetThreadRunning = false then (false, false)
         else (e.jobCompletesBeforeTimeout, e.jobCompletesBeforeTimeout)) := by
  rcases e with ⟨ln, st, tr, jc⟩
  simp only at hn
  subst hn
  cases st <;> cases tr <;> cases jc <;> simp [lambdaOnObject]

theorem lambdaOnObject_spec_witness :
    (CallEnv.mk false false true true).lambdaNull = false ∧
      ((lambdaOnObject (CallEnv.mk false false true true)).1 =
          (lambdaOnObject (CallEnv.mk false false true true)).2 ∧
        lambdaOnObject (CallEnv.mk false false true true) =
          (if (CallEnv.mk false false true true).sameThread then (true, true)
           else if (CallEnv.mk false false true true).targetThreadRunning = false then (false, false)
           else ((CallEnv.mk false false true true).jobCompletesBeforeTimeout,
                 (CallEnv.mk false false true true).jobCompletesBeforeTimeout))) :=
  ⟨rfl, lambdaOnObject_spec (CallEnv.mk false false true true) rfl⟩

/-! ### Stats HTTP endpoints (App.cpp lines 1073-1106)

JSON values (`QVariant` trees fed to `Json::toUtf8`) are modelled by the
inductive `JVal`; `JVal.nullV` is the null `QVariant`. -/

inductive JVal where
  | nullV
  | boolV (b : Bool)
  | intV (n : Int)
  | strV (s : String)
  | arrV (elems : List JVal)
  | objV (fields : List (String × JVal))

def JVal.isNull : JVal → Bool
  | JVal.nullV => true
  | _ => false

mutual

/-- Modelled from the spec: the JSON serializer behind `Json::toUtf8`
(Json.cpp is not among the provided sources); compact one-line rendering. -/
def jserialize : JVal → String
  | JVal.nullV => "null"
  | JVal.boolV true => "true"
  | JVal.boolV false => "false"
  | JVal.intV n => toString n
  | JVal.strV s => "\"" ++ s ++ "\""
  | JVal.arrV es => "[" ++ jserializeList es ++ "]"
  | JVal.objV fs => "\x7b" ++ jserializeFields fs ++ "\x7d"

def jserializeList : List JVal → String
  | [] => ""
  | [e] => jserialize e
  | e :: rest => jserialize e ++ "," ++ jserializeList rest

def jserializeFields : List (String × JVal) → String
  | [] => ""
  | [(k, v)] => "\"" ++ k ++ "\":" ++ jserialize v
  | (k, v) :: rest => "\"" ++ k ++ "\":" ++ jserialize v ++ "," ++ jserializeFields rest

end

/-- Modelled from the spec: `Json::toUtf8` serializes a QVariant tree and, like
`Util::Json::toString` (Util.cpp lines 55-61), throws on an empty/invalid
(null) variant.  The endpoint lambdas say "may throw -- calling code will
handle exception", hence the `Except`. -/
def jsonToUtf8 (v : JVal) : Except String String :=
  if v.isNull then Except.error "Empty or invalid QVariant passed to Json::toString"
  else Except.ok (jserialize v)

def statsContentType : String := "application/json; charset=utf-8"

def CRLF : String := "\r\n"

structure HttpResponse where
  contentType : String
  data : String
  deriving DecidableEq

/-- The `/stats` endpoint lambda (App.cpp lines 1093-1098): substitutes
`[null]` for a null snapshot, serializes, and appends CRLF. -/
def statsEndpoint (snapshot : JVal) : Except String HttpResponse := do
  let stats := if snapshot.isNull then JVal.arrV [JVal.nullV] else snapshot
  let d ← jsonToUtf8 stats
  return { contentType := statsContentType, data := d ++ CRLF }

/-- ParseParams (App.cpp lines 1074-1083): splits the query string on `&`,
then each pair on `=`; only pairs that split into exactly two parts are kept. -/
def parseParams (queryStr : String) : List (String × String) :=
  (queryStr.splitOn "&").foldl
    (fun params nvp =>
      match nvp.splitOn "=" with
      | [k, v] => params ++ [(k, v)]
      | _ => params)
    []

/-- The `/debug` endpoint lambda (App.cpp lines 1099-1105): parses the query
params, obtains the controller's debug snapshot for them (the controller is
external to the provided sources, so it is passed in as a function), then
renders exactly like `/stats`. -/
def debugEndpoint (debugSafe : List (String × String) → JVal) (queryStr : String) :
    Except String HttpResponse := do
  let params := parseParams queryStr
  let stats := debugSafe params
  let stats := if stats.isNull then JVal.arrV [JVal.nullV] else stats
  let d ← jsonToUtf8 stats
  return { contentType := statsContentType, data := d ++ CRLF }

lemma normalized_not_null (v : JVal) :
    (if v.isNull then JVal.arrV [JVal.nullV] else v).isNull = false := by
  cases v <;> rfl

lemma jsonToUtf8_normalized (v : JVal) :
    jsonToUtf8 (if v.isNull then JVal.arrV [JVal.nullV] else v) =
      Except.ok (jserialize (if v.isNull then JVal.arrV [JVal.nullV] else v)) := by
  rw [jsonToUtf8, normalized_not_null]
  rfl

/-- C7: both handlers always succeed with content type
`application/json; charset=utf-8` and a body that is the JSON serialization of
the snapshot (the one-element array `[null]` when the snapshot is null)
terminated by CRLF — so the response is always the well-formed serialization
of an actual JSON value, never the serializer's null-variant error. -/
theorem stats_debug_endpoints_wellformed (snapshot : JVal)
    (debugSafe : List (String × String) → JVal) (queryStr : String) :
    statsEndpoint snapshot =
      Except.ok (HttpResponse.mk statsContentType
        (jserialize (if snapshot.isNull then JVal.arrV [JVal.nullV] else snapshot) ++ CRLF)) ∧
    debugEndpoint debugSafe queryStr =
      Except.ok (HttpResponse.mk statsContentType
        (jserialize (if (debugSafe (parseParams queryStr)).isNull then JVal.arrV [JVal.nullV]
                     else debugSafe (parseParams queryStr)) ++ CRLF)) ∧
    statsContentType = "application/json; charset=utf-8" := by
  refine ⟨?_, ?_, rfl⟩
  · rw [statsEndpoint]
    simp only [jsonToUtf8_normalized]
    rfl
  · rw [debugEndpoint]
    simp only [jsonToUtf8_normalized]
    rfl

/-! ### Waiting for thread-pool workers at shutdown (App.cpp lines 163-179)

`ThreadPool` is external to the provided sources, so the behavior of a single
`shutdownWaitForJobs` call is modelled from the spec: it blocks new
submissions, waits for drain up to the timeout and returns whether the pool
quiesced, with the remaining count at timeout reportable.  `PoolShutdown.wf`
records the obvious coherence facts (jobs only drain, so the remaining count
never exceeds the starting count, and a drained pool has none remaining). -/

structure PoolShutdown where
  extantAtStart : Nat
  drained : Bool
  remainingAtTimeout : Nat

def PoolShutdown.wf (p : PoolShutdown) : Prop :=
  p.remainingAtTimeout ≤ p.extantAtStart ∧ (p.drained = true → p.remainingAtTimeout = 0)

inductive CleanupLogRec where
  | waitingInfo
  | warnStillActive (elapsedSecs : Nat) (nJobs : Nat)
  | successDebug (nJobs : Nat)
  deriving DecidableEq

/-- The `constexpr int timeout = 5000` of App::cleanup_WaitForThreadPoolWorkers. -/
def cleanupTimeout : Nat := 5000

/-- App::cleanup_WaitForThreadPoolWorkers: captures `nJobs = tpool->extantJobs()`
BEFORE calling `shutdownWaitForJobs(timeout)`, then logs.  `elapsedSecs` models
`qRound(double(t0.elapsed())/1e3)`.  Returns the timeout passed to the pool and
the log records emitted. -/
def cleanup_WaitForThreadPoolWorkers (p : PoolShutdown) (elapsedSecs : Nat) :
    Nat × List CleanupLogRec :=
  let nJobs := p.extantAtStart
  let logs :=
    (if nJobs ≠ 0 then [CleanupLogRec.waitingInfo] else []) ++
    (if p.drained = false then [CleanupLogRec.warnStillActive elapsedSecs nJobs]
     else if nJobs ≠ 0 then [CleanupLogRec.successDebug nJobs] else [])
  (cleanupTimeout, logs)

def poolCex : PoolShutdown := PoolShutdown.mk 2 false 1

/-- C8 counterexample: a pool that starts shutdown with 2 extant jobs, drains
one of them, and times out with 1 still remaining.  The warning record reports
2 (the count captured before the wait), not the count of jobs still remaining
at timeout (1) — the claim's "reports the count of thread-pool jobs still
remaining at timeout" fails on this input. -/
theorem cleanup_warning_count_counterexample :
    poolCex.wf ∧
      (cleanup_WaitForThreadPoolWorkers poolCex 5).2 =
        [CleanupLogRec.waitingInfo, CleanupLogRec.warnStillActive 5 2] ∧
      poolCex.remainingAtTimeout = 1 ∧ (2 : Nat) ≠ 1 := by
  refine ⟨⟨by decide, by decide⟩, rfl, rfl, by decide⟩

/-- C8 amended: at shutdown, the app passes a 5000 ms timeout to
`shutdownWaitForJobs`; if the pool does not quiesce within that timeout, a
warning record is logged reporting the count of thread-pool jobs that were
extant when the shutdown wait began (which may exceed the number still
remaining at timeout). -/
theorem cleanup_waits_5s_and_warns (p : PoolShutdown) (es : Nat)
    (h : p.drained = false) :
    (cleanup_WaitForThreadPoolWorkers p es).1 = 5000 ∧
      CleanupLogRec.warnStillActive es p.extantAtStart ∈
        (cleanup_WaitForThreadPoolWorkers p es).2 := by
  refine ⟨rfl, ?_⟩
  unfold cleanup_WaitForThreadPoolWorkers
  simp only [h]
  by_cases h0 : p.extantAtStart ≠ 0 <;> simp [h0]

theorem cleanup_waits_5s_and_warns_witness :
    poolCex.drained = false ∧
      ((cleanup_WaitForThreadPoolWorkers poolCex 5).1 = 5000 ∧
        CleanupLogRec.warnStillActive 5 poolCex.extantAtStart ∈
          (cleanup_WaitForThreadPoolWorkers poolCex 5).2) :=
  ⟨rfl, cleanup_waits_5s_and_warns poolCex 5 rfl⟩

/-! ### polltime resolution (App.cpp lines 450-456)

`Options::minPollTimeSecs` / `maxPollTimeSecs` are declared in Options.h (not
among the provided sources); per the spec the valid range is [0.5, 30.0].  The
poll time is compared exactly, so it is modelled as `ℚ`.  `QString::toDouble`
is modelled by its result: `none` when `ok` comes back false (in which case
toDouble returns 0.0, which the code assigns before testing `ok`). -/

def minPollTimeSecs : ℚ := 1 / 2

def maxPollTimeSecs : ℚ := 30

def pollTimeErrMsg : String :=
  "The polltime option must be a numeric value in the range [0.5, 30]"

/-- The polltime check of App::parseArgs: assigns `toDouble`'s result (0 when
parsing failed) and throws BadArgs unless it parsed and lies in range. -/
def resolvePollTime (parsed : Option ℚ) : Except String ℚ :=
  let v := parsed.getD 0
  if v < minPollTimeSecs ∨ parsed.isSome = false ∨ v > maxPollTimeSecs then
    Except.error pollTimeErrMsg
  else
    Except.ok v

/-- App boot for the polltime path: `parseArgs` runs in the App constructor;
a BadArgs there is caught and the process exits 1 (App.cpp lines 70-77) before
`startup` ever runs, and only `startup` opens listeners (App.cpp lines
134-143).  Result: (exit code if any, listeners opened). -/
def appBootPollTime (parsed : Option ℚ) (ifaces : List (String × Nat)) :
    Option Nat × List (String × Nat) :=
  match resolvePollTime parsed with
  | Except.error _ => (some 1, [])
  | Except.ok _ => (none, ifaces)

/-- C2: when polltime resolution succeeds the resolved value lies in
[0.5, 30.0]; an input that does not parse as a number or parses outside
[0.5, 30.0] makes resolution throw BadArgs naming the valid range, and the app
then exits 1 with no listener opened. -/
theorem polltime_validated (parsed : Option ℚ) (ifaces : List (String × Nat)) :
    (match resolvePollTime parsed with
     | Except.ok v =>
         (minPollTimeSecs ≤ v ∧ v ≤ maxPollTimeSecs) ∧ some v = parsed ∧
           appBootPollTime parsed ifaces = (none, ifaces)
     | Except.error msg =>
         msg = pollTimeErrMsg ∧ appBootPollTime parsed ifaces = (some 1, [])) ∧
      ((parsed = none ∨ parsed.getD 0 < minPollTimeSecs ∨ maxPollTimeSecs < parsed.getD 0) ↔
        resolvePollTime parsed = Except.error pollTimeErrMsg) := by
  rcases parsed with _ | v
  · have hcond : ((none : Option ℚ).getD 0 < minPollTimeSecs ∨ (none : Option ℚ).isSome = false ∨
        (none : Option ℚ).getD 0 > maxPollTimeSecs) := by
      right; left; rfl
    simp [resolvePollTime, appBootPollTime, hcond]
  · by_cases h1 : v < minPollTimeSecs
    · have hcond : ((some v).getD 0 < minPollTimeSecs ∨ (some v).isSome = false ∨
          (some v).getD 0 > maxPollTimeSecs) := Or.inl h1
      simp [resolvePollTime, appBootPollTime, hcond, h1]
    · by_cases h2 : v > maxPollTimeSecs
      · have hcond : ((some v).getD 0 < minPollTimeSecs ∨ (some v).isSome = false ∨
            (some v).getD 0 > maxPollTimeSecs) := Or.inr (Or.inr h2)
        simp [resolvePollTime, appBootPollTime, hcond, h2]
      · have hcond : ¬((some v).getD 0 < minPollTimeSecs ∨ (some v).isSome = false ∨
            (some v).getD 0 > maxPollTimeSecs) := by
          push_neg
          exact ⟨not_lt.mp h1, by simp, not_lt.mp h2⟩
        have hif : resolvePollTime (some v) = Except.ok v := by
          simp only [resolvePollTime]
          rw [if_neg hcond]
          rfl
        simp [appBootPollTime, hif, h1, h2]
        exact ⟨not_lt.mp h1, not_lt.mp h2⟩

/-! ### SSL/WSS certificate requirements (App.cpp lines 586-628)

String emptiness stands for "the option was not supplied" exactly as in the
source (`QString::isEmpty`).  The source's pair check
`std::tuple(c.isEmpty(), k.isEmpty()) != std::tuple(k.isEmpty(), c.isEmpty())`
holds iff `c.isEmpty() != k.isEmpty()`, and is run for the cert/key pair first,
then the wss pair.  `makeCertInfo` (file loading) is downstream of these
checks and is abstracted: `checkCerts` returns the resolved
(cert, key, wssCert, wssKey) file names, `none` when no SSL/WSS listener is
configured so the whole block is skipped. -/

def sslRequiresMsg (hasSSL : Bool) : String :=
  (if hasSSL then "SSL" else "WSS") ++
    " option requires both -c/--cert and -k/--key options be specified"

structure CertArgs where
  hasSSL : Bool
  hasWSS : Bool
  cert : String
  key : String
  wssCert : String
  wssKey : String

def checkCerts (a : CertArgs) : Except String (Option (String × String × String × String)) :=
  if a.hasSSL || a.hasWSS then
    if (a.cert.isEmpty != a.key.isEmpty) then
      Except.error "`cert` and `key` must both be specified"
    else if (a.wssCert.isEmpty != a.wssKey.isEmpty) then
      Except.error "`wss-cert` and `wss-key` must both be specified"
    else if a.cert.isEmpty && (a.hasSSL || a.wssCert.isEmpty) then
      Except.error (sslRequiresMsg a.hasSSL)
    else if !a.wssCert.isEmpty && !a.hasWSS then
      Except.error "wss-cert option specified but no WSS listening ports defined"
    else
      let r := if a.cert.isEmpty && !a.wssCert.isEmpty
               then (a.wssCert, a.wssKey, "", "")
               else (a.cert, a.key, a.wssCert, a.wssKey)
      if r.1.isEmpty || r.2.1.isEmpty then
        Except.error "Internal Error: cert and/or key is empty"
      else Except.ok (some r)
  else Except.ok none

/-- A BadArgs thrown during parseArgs is caught in the App constructor, which
exits with code 1 (App.cpp lines 70-77). -/
def certExitCode (a : CertArgs) : Option Nat :=
  match checkCerts a with
  | Except.error _ => some 1
  | Except.ok _ => none

lemma empty_string_isEmpty : "".isEmpty = true := rfl

/-- C3: with SSL or WSS listeners configured, resolution succeeds only if both
cert and key are supplied (each of the cert/key and wss-cert/wss-key pairs is
given both-or-neither); when only WSS listeners are present wss-cert/wss-key
may substitute for cert/key; and an SSL listener configured with no
certificate options at all fails with exit code 1 and the message
"SSL option requires both -c (--cert) and -k (--key) options be specified"
(quoted here with the slashes elided). -/
theorem ssl_requires_cert_key (a : CertArgs) :
    (match checkCerts a with
     | Except.ok (some r) =>
         (a.cert.isEmpty = a.key.isEmpty) ∧ (a.wssCert.isEmpty = a.wssKey.isEmpty) ∧
         r.1.isEmpty = false ∧ r.2.1.isEmpty = false ∧
         ((a.cert.isEmpty = false ∧ a.key.isEmpty = false) ∨
          (a.hasSSL = false ∧ a.hasWSS = true ∧ r.1 = a.wssCert ∧ r.2.1 = a.wssKey))
     | Except.ok none => a.hasSSL = false ∧ a.hasWSS = false
     | Except.error _ => certExitCode a = some 1) ∧
    (a.hasSSL = true → a.cert = "" → a.key = "" → a.wssCert = "" → a.wssKey = "" →
       checkCerts a =
           Except.error "SSL option requires both -c/--cert and -k/--key options be specified" ∧
         certExitCode a = some 1) := by
  rcases a with ⟨hs, hw, c, k, wc, wk⟩
  cases hs <;> cases hw <;>
    cases hce : c.isEmpty <;> cases hke : k.isEmpty <;>
    cases hwce : wc.isEmpty <;> cases hwke : wk.isEmpty <;>
    simp_all [checkCerts, certExitCode, sslRequiresMsg, empty_string_isEmpty]

def certArgsCex : CertArgs := CertArgs.mk true false "" "" "" ""

theorem ssl_requires_cert_key_witness :
    checkCerts certArgsCex =
        Except.error "SSL option requires both -c/--cert and -k/--key options be specified" ∧
      certExitCode certArgsCex = some 1 :=
  (ssl_requires_cert_key certArgsCex).2 rfl rfl rfl rfl rfl

/-! ### CLI-over-config precedence (App.cpp lines 417-429)

`ConfigFile` is declared in App.h and implemented outside the provided
sources; it is modelled from the spec: simple `key = value` lines, repeated
keys yield a list, with `hasValue` / `values` / `value(key, default)` /
`remove` container operations.  `CmdLine` models the relevant surface of
QCommandLineParser (`isSet`, `value`).  `dupeScanName` is one iteration of the
"first warn user about dupes" loop: 1-character (short) names are skipped, and
a key present in the config file and set on the CLI is dropped from the config
file after logging the precedence message.  `resolvedValue` is the
`conf.value(l, parser.value(s))` read pattern option resolution then uses. -/

structure ConfigFile where
  entries : List (String × String)

def ConfigFile.hasValue (c : ConfigFile) (name : String) : Bool :=
  c.entries.any fun e => e.1 == name

def ConfigFile.values (c : ConfigFile) (name : String) : List String :=
  (c.entries.filter fun e => e.1 == name).map Prod.snd

def ConfigFile.value (c : ConfigFile) (name dflt : String) : String :=
  match c.values name with
  | [] => dflt
  | v :: _ => v

def ConfigFile.remove (c : ConfigFile) (name : String) : ConfigFile :=
  ConfigFile.mk (c.entries.filter fun e => !(e.1 == name))

structure CmdLine where
  setNames : List String
  argValues : List (String × String)

def CmdLine.isSet (p : CmdLine) (name : String) : Bool :=
  p.setNames.contains name

def CmdLine.value (p : CmdLine) (name : String) : String :=
  match p.argValues.filter (fun e => e.1 == name) with
  | [] => ""
  | e :: _ => e.2

def dupeMsg (arg : String) : String :=
  arg ++ " specified both via the CLI and the configuration file. The CLI arg will take precedence."

def dupeScanName (p : CmdLine) (st : ConfigFile × List String) (name : String) :
    ConfigFile × List String :=
  if name.length == 1 then st
  else if st.1.hasValue name && p.isSet name then
    (st.1.remove name, st.2 ++ [dupeMsg name])
  else st

def dupeScan (allOptions : List (List String)) (conf : ConfigFile) (p : CmdLine) :
    ConfigFile × List String :=
  allOptions.foldl (fun st names => names.foldl (dupeScanName p) st) (conf, [])

def resolvedValue (conf : ConfigFile) (p : CmdLine) (name : String) : String :=
  conf.value name (p.value name)

lemma hasValue_remove_self (c : ConfigFile) (n : String) :
    (c.remove n).hasValue n = false := by
  unfold ConfigFile.remove ConfigFile.hasValue
  rw [List.any_eq_false]
  intro x hx
  have := (List.mem_filter.mp hx).2
  simpa using this

lemma hasValue_remove_ne (c : ConfigFile) (n k : String) (h : (k == n) = false) :
    (c.remove n).hasValue k = c.hasValue k := by
  unfold ConfigFile.remove ConfigFile.hasValue
  rcases c with ⟨es⟩
  induction es with
  | nil => rfl
  | cons e es ih =>
    simp only [List.filter_cons, List.any_cons]
    cases hq : (e.1 == n)
    · simp only [Bool.not_false, if_pos rfl]
      simp [List.any_cons, ih]
    · have he : e.1 = n := by simpa using hq
      have hek : (e.1 == k) = false := by
        rw [he]
        have : ¬(k = n) := by simpa using h
        simpa using fun hh => this hh.symm
      simp only [Bool.not_true]
      simp [hek, ih]

lemma value_of_hasValue_false (c : ConfigFile) (k d : String) (h : c.hasValue k = false) :
    c.value k d = d := by
  unfold ConfigFile.hasValue at h
  rw [List.any_eq_false] at h
  have hnil : (c.entries.filter fun e => e.1 == k) = [] := List.filter_eq_nil_iff.mpr h
  unfold ConfigFile.value ConfigFile.values
  rw [hnil]
  rfl

lemma foldl_log_mono (p : CmdLine) (ns : List String) (st : ConfigFile × List String)
    (m : String) (h : m ∈ st.2) :
    m ∈ (ns.foldl (dupeScanName p) st).2 := by
  induction ns generalizing st with
  | nil => exact h
  | cons n ns ih =>
    rw [List.foldl_cons]
    apply ih
    unfold dupeScanName
    split
    · exact h
    · split
      · exact List.mem_append_left _ h
      · exact h

lemma foldl_hasValue_false_stable (p : CmdLine) (key : String) (ns : List String)
    (st : ConfigFile × List String) (h : st.1.hasValue key = false) :
    ((ns.foldl (dupeScanName p) st).1).hasValue key = false := by
  induction ns generalizing st with
  | nil => exact h
  | cons n ns ih =>
    rw [List.foldl_cons]
    apply ih
    unfold dupeScanName
    split
    · exact h
    · split
      · cases hk : (key == n)
        · rw [hasValue_remove_ne st.1 n key hk]
          exact h
        · have : key = n := by simpa using hk
          subst this
          exact hasValue_remove_self st.1 key
      · exact h

lemma foldl_dupe_removes (p : CmdLine) (key : String)
    (hlen : (key.length == 1) = false) (hset : p.isSet key = true) :
    ∀ (ns : List String) (st : ConfigFile × List String),
      key ∈ ns → st.1.hasValue key = true →
      ((ns.foldl (dupeScanName p) st).1.hasValue key = false ∧
        dupeMsg key ∈ (ns.foldl (dupeScanName p) st).2) := by
  intro ns
  induction ns with
  | nil => intro st h _; exact absurd h (List.not_mem_nil key)
  | cons n ns ih =>
    intro st hmem hhas
    rw [List.foldl_cons]
    by_cases heq : n = key
    · subst heq
      have hstep : dupeScanName p st n = (st.1.remove n, st.2 ++ [dupeMsg n]) := by
        simp [dupeScanName, hlen, hhas, hset]
      rw [hstep]
      constructor
      · exact foldl_hasValue_false_stable p n ns _ (hasValue_remove_self st.1 n)
      · exact foldl_log_mono p ns _ _ (List.mem_append_right _ (by simp))
    · have htail : key ∈ ns := by
        rcases List.mem_cons.mp hmem with h | h
        · exact absurd h.symm heq
        · exact h
      have hkn : (key == n) = false := by
        simpa using fun hh => heq hh.symm
      have hpres : (dupeScanName p st n).1.hasValue key = st.1.hasValue key := by
        unfold dupeScanName
        split
        · rfl
        · split
          · exact hasValue_remove_ne st.1 n key hkn
          · rfl
      exact ih _ htail (hpres.trans hhas)

/-- C1: for every option key with a long-form name (the dupe loop skips
1-character names) that is set both on the command line and in the config
file, the dupe pass removes the config-file entry before resolution, so the
resolved value equals the command-line value, and a log record naming that key
and stating that the CLI argument takes precedence is emitted. -/
theorem cli_overrides_conf (opts : List (List String)) (names : List String)
    (conf : ConfigFile) (p : CmdLine) (key : String)
    (h1 : names ∈ opts) (h2 : key ∈ names) (h3 : (key.length == 1) = false)
    (h4 : conf.hasValue key = true) (h5 : p.isSet key = true) :
    (dupeScan opts conf p).1.hasValue key = false ∧
      resolvedValue (dupeScan opts conf p).1 p key = p.value key ∧
      dupeMsg key ∈ (dupeScan opts conf p).2 := by
  have hflat : dupeScan opts conf p = (opts.flatten).foldl (dupeScanName p) (conf, []) := by
    unfold dupeScan
    rw [List.foldl_flatten]
  have hmem : key ∈ opts.flatten := List.mem_flatten.mpr ⟨names, h1, h2⟩
  have hmain := foldl_dupe_removes p key h3 h5 opts.flatten (conf, []) hmem h4
  rw [hflat]
  refine ⟨hmain.1, ?_, hmain.2⟩
  unfold resolvedValue
  exact value_of_hasValue_false _ key _ hmain.1

def optsEx : List (List String) := [["d", "debug"]]

def confEx : ConfigFile := ConfigFile.mk [("debug", "true")]

def cmdLineEx : CmdLine := CmdLine.mk ["debug"] [("debug", "1")]

theorem cli_overrides_conf_witness :
    (dupeScan optsEx confEx cmdLineEx).1.hasValue "debug" = false ∧
      resolvedValue (dupeScan optsEx confEx cmdLineEx).1 cmdLineEx "debug" =
        cmdLineEx.value "debug" ∧
      dupeMsg "debug" ∈ (dupeScan optsEx confEx cmdLineEx).2 :=
  cli_overrides_conf optsEx ["d", "debug"] confEx cmdLineEx "debug"
    (by decide) (by decide) (by decide) (by decide) (by decide)


end Fulcrum
